import Mathlib

set_option autoImplicit false

/-!
# A shallow embedding of the volare PDK version manager core

This file embeds, in Lean 4, the data model and the operations of the
`volare` version-resolution / retrieval / activation subsystem
(`volare/families.py`, `volare/common.py`, `volare/manage.py`) and proves
properties of that embedding.

Modelling conventions:
* `datetime` instants become `Nat` (with `datetime.min` mapped to `0`);
* a file that may or may not exist becomes an `Option String` holding its
  contents when present;
* the on-disk state that the manager owns (version directories, the
  top-level variant symlinks, the per-family `current` marker file)
  becomes an explicit `PdkState` record threaded through the operations;
* network access becomes explicit oracle parameters (the parsed response
  the remote would have returned), and the number of HTTP requests an
  operation performs is returned alongside its result;
* Python exceptions become `Except` results carrying the state at the
  time of the raise.
-/

deriving instance DecidableEq for Except

namespace Volare

/-! ## Python string primitives

The Python string methods the code relies on (`str.lower`, `str.split`,
`str.strip`, `str.endswith`, negative slicing) are re-implemented here by
structural recursion over the character list, so that every definition in
this file evaluates inside the kernel. -/

/-- ASCII lowercasing of one character, as `str.lower` does per character. -/
def lowerChar (c : Char) : Char :=
  if 'A' ≤ c && c ≤ 'Z' then Char.ofNat (c.toNat + 32) else c

/-- Python method `str.lower`. -/
def pyLower (s : String) : String := ⟨s.data.map lowerChar⟩

/-- Helper for `pySplit`: splits a character list at every occurrence of
`sep`, keeping empty segments (as Python's `str.split(sep)` does). -/
def splitCharGo (sep : Char) : List Char → List Char → List (List Char)
  | [], acc => [acc.reverse]
  | c :: rest, acc =>
    if c = sep then acc.reverse :: splitCharGo sep rest []
    else splitCharGo sep rest (c :: acc)

/-- Python method `str.split` for a one-character separator: `"a-b-c" ↦ ["a","b","c"]`,
`"a" ↦ ["a"]`, `"" ↦ [""]`. -/
def pySplit (s : String) (sep : Char) : List String :=
  (splitCharGo sep s.data []).map String.mk

/-- Python method `str.endswith`. -/
def strEndsWith (s suffix : String) : Bool :=
  decide (s.data.length ≥ suffix.data.length) &&
    s.data.drop (s.data.length - suffix.data.length) == suffix.data

/-- The negative slice `s[:-n]`. -/
def strDropRight (s : String) (n : Nat) : String := ⟨s.data.take (s.data.length - n)⟩

/-- The ASCII whitespace characters `str.strip()` removes. -/
def isSpaceChar (c : Char) : Bool :=
  c == ' ' || c == '\t' || c == '\n' || c == '\r' || c == '\x0b' || c == '\x0c'

/-- Python method `str.strip`: removes leading and trailing whitespace. -/
def pyStrip (s : String) : String :=
  ⟨((s.data.dropWhile isSpaceChar).reverse.dropWhile isSpaceChar).reverse⟩

/-! ## Association-list helpers, modelling `dict`s and directory listings -/

def alookup {α : Type} : List (String × α) → String → Option α
  | [], _ => none
  | (k, v) :: rest, key => if k = key then some v else alookup rest key

def aset {α : Type} : List (String × α) → String → α → List (String × α)
  | [], key, value => [(key, value)]
  | (k, v) :: rest, key, value =>
    if k = key then (k, value) :: rest else (k, v) :: aset rest key value

def aremove {α : Type} : List (String × α) → String → List (String × α)
  | [], _ => []
  | (k, v) :: rest, key =>
    if k = key then aremove rest key else (k, v) :: aremove rest key

/-! ## `volare/github.py` / `volare/families.py`: the family registry -/

structure RepoInfo where
  owner : String
  name : String
deriving Repr, DecidableEq

def opdks_repo : RepoInfo := ⟨"RTimothyEdwards", "open_pdks"⟩

/-- Modelled from the spec: `ihp_repo` is imported by `families.py` but its
definition is absent from the sources; it is an upstream source-repository
reference used only for commit-date lookups, and no operation modelled here
ever inspects its fields. Any concrete value is therefore faithful. -/
def ihp_repo : RepoInfo := ⟨"IHP-GmbH", "IHP-Open-PDK"⟩

/-- Structure `families.Family`, after `__post_init__` has filled in the defaulted
fields (`default_variant := variants[0]`,
`default_includes := all_libraries.copy()`). -/
structure Family where
  name : String
  variants : List String
  all_libraries : List String
  repo : RepoInfo
  default_variant : String
  default_includes : List String
deriving Repr, DecidableEq

/-- The loop body of `Family.resolve_libraries`: `final_set` is built up
left to right; `"all"` (case-insensitively) short-circuits to the full
library set, `"default"` unions in the default subset, a known library
name is inserted, and an unknown name raises `ValueError`. -/
def resolveLibrariesGo (fam : Family) : List String → Finset String →
    Except String (Finset String)
  | [], final_set => .ok final_set
  | element :: rest, final_set =>
    if pyLower element = "all" then
      .ok fam.all_libraries.toFinset
    else if pyLower element = "default" then
      resolveLibrariesGo fam rest (final_set ∪ fam.default_includes.toFinset)
    else if fam.all_libraries.contains element then
      resolveLibrariesGo fam rest (insert element final_set)
    else
      .error ("Unknown library " ++ element ++ " for PDK " ++ fam.name)

/-- Method `Family.resolve_libraries`: a `None` input is replaced by `("default",)`
before the loop runs. -/
def Family.resolve_libraries (fam : Family) (input : Option (List String)) :
    Except String (Finset String) :=
  resolveLibrariesGo fam (input.getD ["default"]) ∅

/-- The hard-coded `Family.by_name["sky130"]` entry. -/
def sky130 : Family :=
  { name := "sky130"
    variants := ["sky130A", "sky130B"]
    default_variant := "sky130A"
    all_libraries :=
      [ "sky130_fd_io", "sky130_fd_pr", "sky130_ml_xx_hd", "sky130_fd_sc_hd"
      , "sky130_fd_sc_hdll", "sky130_fd_sc_lp", "sky130_fd_sc_hvl"
      , "sky130_fd_sc_ls", "sky130_fd_sc_ms", "sky130_fd_sc_hs"
      , "sky130_sram_macros", "sky130_fd_pr_reram" ]
    default_includes :=
      [ "sky130_fd_io", "sky130_fd_pr", "sky130_fd_sc_hd", "sky130_fd_sc_hvl"
      , "sky130_ml_xx_hd", "sky130_sram_macros" ]
    repo := opdks_repo }

/-- The hard-coded `Family.by_name["gf180mcu"]` entry. -/
def gf180mcu : Family :=
  { name := "gf180mcu"
    variants := ["gf180mcuA", "gf180mcuB", "gf180mcuC", "gf180mcuD"]
    default_variant := "gf180mcuD"
    all_libraries :=
      [ "gf180mcu_fd_io", "gf180mcu_fd_pr", "gf180mcu_fd_sc_mcu7t5v0"
      , "gf180mcu_fd_sc_mcu9t5v0", "gf180mcu_fd_ip_sram"
      , "gf180mcu_osu_sc_gp12t3v3", "gf180mcu_osu_sc_gp9t3v3" ]
    default_includes :=
      [ "gf180mcu_fd_io", "gf180mcu_fd_pr", "gf180mcu_fd_sc_mcu7t5v0"
      , "gf180mcu_fd_sc_mcu9t5v0", "gf180mcu_fd_ip_sram" ]
    repo := opdks_repo }

/-- The hard-coded `Family.by_name["ihp_sg13g2"]` entry (`default_variant`
and `default_includes` filled in by `__post_init__`). -/
def ihp_sg13g2 : Family :=
  { name := "ihp_sg13g2"
    variants := ["ihp-sg13g2"]
    default_variant := "ihp-sg13g2"
    all_libraries := ["sg13g2_io", "sg13g2_pr", "sg13g2_sram", "sg13g2_stdcell"]
    default_includes := ["sg13g2_io", "sg13g2_pr", "sg13g2_sram", "sg13g2_stdcell"]
    repo := ihp_repo }

/-- The `Family.by_name` registry dictionary. -/
def Family.by_name (pdk : String) : Option Family :=
  alookup [("sky130", sky130), ("gf180mcu", gf180mcu), ("ihp_sg13g2", ihp_sg13g2)] pdk

/-! ## `volare/common.py`: the `Version` model -/

/-- Structure `common.Version` (a `dataclass`); `datetime` is modelled as `Nat`. -/
structure Version where
  name : String
  pdk : String
  commit_date : Option Nat := none
  upload_date : Option Nat := none
  prerelease : Bool := false
deriving Repr, DecidableEq

/-- Method `Version.__lt__`: compares `self.commit_date or datetime.min` with
`rhs.commit_date or datetime.min`; `datetime.min` is modelled as `0`. -/
def Version.ltDate (a b : Version) : Bool :=
  a.commit_date.getD 0 < b.commit_date.getD 0

/-- One insertion step of a stable descending sort by `Version.__lt__`
(the comparison Python's `list.sort(reverse=True)` is driven by):
`v` is placed before the first element it is not strictly less than. -/
def insertDesc (v : Version) : List Version → List Version
  | [] => [v]
  | w :: ws => if Version.ltDate v w then w :: insertDesc v ws else v :: w :: ws

/-- Python `list.sort(reverse=True)` on a list of `Version`s: a stable sort that
orders by commit date, newest first. -/
def sortDesc (l : List Version) : List Version :=
  l.foldr insertDesc []

/-- Function `common._get_current_version`: reads the per-family `current` marker
file and strips surrounding whitespace; a missing file (`FileNotFoundError`)
yields `None`. The marker file is modelled by its optional contents. -/
def getCurrentVersionRaw (marker : Option String) : Option String :=
  match marker with
  | none => none
  | some contents => some (pyStrip contents)

/-- Method `Version.get_current`: wraps `_get_current_version` into a `Version`
object (with no dates and no prerelease flag). -/
def Version.get_current (pdk : String) (marker : Option String) : Option Version :=
  match getCurrentVersionRaw marker with
  | none => none
  | some current_version => some { name := current_version, pdk := pdk }

/-! ## `Version._from_github`: the remote catalogue resolution

One JSON release object, as far as `_from_github` reads it. The
free-text `body` field is represented by the result of the
`released on ([\d\-\:TZ]+)` regex search already applied to it: the
optional commit date it embeds. -/

structure Release where
  draft : Bool
  tag_name : String
  published_at : Nat
  body_commit_date : Option Nat
  prerelease : Bool
deriving Repr, DecidableEq

/-- The `rvs_by_pdk[family].append(remote_version)` step, creating the
dictionary entry on first use (dictionaries keep insertion order). -/
def addToFamilyDict (acc : List (String × List Version)) (family : String)
    (v : Version) : List (String × List Version) :=
  match alookup acc family with
  | none => acc ++ [(family, [v])]
  | some vs => aset acc family (vs ++ [v])

/-- The release loop of `Version._from_github`: drafts are skipped;
`family, hash = release["tag_name"].split("-")` raises `ValueError`
(aborting the whole resolution) unless the split has exactly two parts;
afterwards each family's list is sorted newest-first. -/
def fromGithubGo : List Release → List (String × List Version) →
    Except String (List (String × List Version))
  | [], acc => .ok (acc.map fun p => (p.1, sortDesc p.2))
  | release :: rest, acc =>
    if release.draft then fromGithubGo rest acc
    else
      match pySplit release.tag_name '-' with
      | [family, hash] =>
        fromGithubGo rest (addToFamilyDict acc family
          { name := hash, pdk := family, commit_date := release.body_commit_date
            upload_date := some release.published_at
            prerelease := release.prerelease })
      | _ =>
        .error ("not enough values to unpack: " ++ release.tag_name)

/-- Method `Version._from_github`, applied to the decoded releases list the
remote returned. -/
def fromGithub (releases : List Release) :
    Except String (List (String × List Version)) :=
  fromGithubGo releases []

/-! ## `common.get_release_links` -/

/-- One release asset, as far as `get_release_links` reads it. -/
structure Asset where
  name : String
  browser_download_url : String
deriving Repr, DecidableEq

/-- The exceptions `get_release_links` can raise: the `KeyError` from
`Family.by_name[pdk]`, the `ValueError` naming the requested standard cell
libraries, and the final "release is malformed" `Exception`. -/
inductive RelError where
  | keyError (pdk : String)
  | noFiles (scl_filter : List String)
  | malformed (pdk : String) (version : String)
deriving Repr, DecidableEq

/-- The asset loop body of `get_release_links`, folding over
`(zst_files, xz_file)`. -/
def releaseAssetStep (default_filter : Bool) (scl_filter : List String)
    (acc : List (String × String) × Option (String × String)) (asset : Asset) :
    List (String × String) × Option (String × String) :=
  if default_filter && asset.name == "default.tar.xz" then
    (acc.1, some (asset.name, asset.browser_download_url))
  else if strEndsWith asset.name ".tar.zst" then
    let asset_scl := strDropRight asset.name 8
    if asset_scl == "common" || scl_filter.contains "all"
        || scl_filter.contains asset_scl then
      (acc.1 ++ [(asset.name, asset.browser_download_url)], acc.2)
    else acc
  else acc

/-- Function `common.get_release_links`. The network interaction is an oracle
parameter: `remote` is `none` when the release-tag endpoint answered with
a status ≥ 400 (in which case the function returns `None`), and
`some assets` otherwise. The local variable `scl_filter` is rebound to the
family's `default_includes` when the argument is `None` (raising `KeyError`
for an unregistered family), and the final branch on that rebound variable
is kept exactly as in the source, including the dead
"release is malformed" arm. -/
def get_release_links (version : String) (pdk : String)
    (scl_filter₀ : Option (List String)) (remote : Option (List Asset)) :
    Except RelError (Option (List (String × String))) :=
  let default_filter := scl_filter₀.isNone
  let rebound : Except RelError (Option (List String)) :=
    match scl_filter₀ with
    | some f => .ok (some f)
    | none =>
      match Family.by_name pdk with
      | some fam => .ok (some fam.default_includes)
      | none => .error (.keyError pdk)
  match rebound with
  | .error e => .error e
  | .ok scl_filter =>
    match remote with
    | none => .ok none
    | some assets =>
      let folded := assets.foldl
        (releaseAssetStep default_filter (scl_filter.getD [])) ([], none)
      if folded.1.length ≠ 0 then .ok (some folded.1)
      else
        match folded.2 with
        | some xz_file => .ok (some [xz_file])
        | none =>
          match scl_filter with
          | some f => .error (.noFiles f)
          | none => .error (.malformed pdk version)

/-- Whether a `get_release_links` outcome is the final
"release is malformed" exception. -/
def isMalformedResult (r : Except RelError (Option (List (String × String)))) :
    Bool :=
  match r with
  | .error (.malformed _ _) => true
  | _ => false

/-! ## The on-disk state owned by the manager

Path derivations from `common.py`. Every path the manager touches lives
under the PDK root, so the state below is rooted there and `pdk_root`
itself never needs to be represented: `os.path.relpath(p, pdk_root)` of a
derived path is the path with the root prefix removed. -/

/-- Function `common.get_volare_dir`. -/
def get_volare_dir (pdk_root pdk : String) : String :=
  pdk_root ++ "/volare/" ++ pdk

/-- Function `common.get_versions_dir`. -/
def get_versions_dir (pdk_root pdk : String) : String :=
  get_volare_dir pdk_root pdk ++ "/versions"

/-- Function `common.get_version_dir`. -/
def get_version_dir (pdk_root pdk version : String) : String :=
  get_versions_dir pdk_root pdk ++ "/" ++ version

/-- Relative path computed by the activation block, namely
`os.path.relpath(os.path.join(get_version_dir(..), variant), pdk_root)`:
the relative symlink target `enable` creates. -/
def relTarget (pdk version variant : String) : String :=
  "volare/" ++ pdk ++ "/versions/" ++ version ++ "/" ++ variant

/-- Python method `str.startswith`, used for directory-existence
queries inside a version tree. -/
def strStartsWith (s pre : String) : Bool := pre.data.isPrefixOf s.data

/-- A directory entry directly under the PDK root: a symbolic link with
its (relative) target string, a regular file, or a real directory. -/
inductive RootEntry where
  | symlink (target : String)
  | file
  | dir
deriving Repr, DecidableEq

/-- The slice of the filesystem that one family's manager state occupies:
* `versions`: for each installed version name, the list of file paths
  (relative to that version's directory) it contains — the directory
  `versions/<name>` exists iff the entry is present, and a subdirectory of
  it exists iff some file lies beneath it (directories are created by
  `mkdirp` on demand and never stored empty, except the version directory
  itself);
* `rootEntries`: the directory entries at `<pdk_root>/<name>`;
* `marker`: the contents of the `volare/<pdk>/current` marker file, or
  `none` when that file does not exist. -/
structure PdkState where
  versions : List (String × List String)
  rootEntries : List (String × RootEntry)
  marker : Option String
deriving Repr, DecidableEq

/-- Test `os.path.exists(get_version_dir(pdk_root, pdk, version))`, which is
also `Version.is_installed`. -/
def isInstalledB (st : PdkState) (version : String) : Bool :=
  (alookup st.versions version).isSome

/-- Method `Version.is_current`, that is `self.name == _get_current_version(...)`. -/
def isCurrentB (st : PdkState) (name : String) : Bool :=
  getCurrentVersionRaw st.marker == some name

/-- Writing one file inside a version directory, creating parent
directories (`mkdirp`) on demand; rewriting an existing path changes no
tree structure (file contents are not modelled). -/
def writeVersionFile (st : PdkState) (version path : String) : PdkState :=
  match alookup st.versions version with
  | none => { st with versions := st.versions ++ [(version, [path])] }
  | some files =>
    if files.contains path then st
    else { st with versions := aset st.versions version (files ++ [path]) }

/-- Writing a batch of files inside a version directory (the unpack loop). -/
def writeFiles (st : PdkState) (version : String) (files : List String) :
    PdkState :=
  files.foldl (fun s f => writeVersionFile s version f) st

/-- Call `shutil.rmtree(version_directory, ignore_errors=True)`. -/
def removeVersionDir (st : PdkState) (version : String) : PdkState :=
  { st with versions := aremove st.versions version }

/-- Resolution of symbolic links: `os.path.exists` follows them, so a link at the PDK root exists
iff its relative target resolves inside the modelled tree, i.e. has the
shape `volare/<pdk>/versions/<version>/<variant>` (the only shape the
manager ever creates) and that variant path exists inside the named
version's directory. Anything else the model's filesystem does not
contain. -/
def targetResolves (st : PdkState) (pdk target : String) : Bool :=
  match pySplit target '/' with
  | ["volare", p, "versions", version, variant] =>
    p == pdk &&
      match alookup st.versions version with
      | none => false
      | some files =>
        files.any fun f => f == variant || strStartsWith f (variant ++ "/")
  | _ => false

/-- The first loop of the activation block of `manage.enable`
(for every variant path: `os.path.exists` → `os.path.islink` → `os.unlink`,
else report the conflict and `exit(1)`). Returns the state as modified so
far together with whether the conflict exit was taken. A broken symlink is
invisible to `os.path.exists` and is left in place. -/
def clearRootGo (pdk : String) : List String → PdkState → PdkState × Bool
  | [], st => (st, false)
  | variant :: rest, st =>
    match alookup st.rootEntries variant with
    | none => clearRootGo pdk rest st
    | some (.symlink target) =>
      if targetResolves st pdk target then
        clearRootGo pdk rest { st with rootEntries := aremove st.rootEntries variant }
      else
        clearRootGo pdk rest st
    | some .file => (st, true)
    | some .dir => (st, true)

/-- The second loop of the activation block: `os.symlink(src, dst)` per
variant. `os.symlink` raises `FileExistsError` when any directory entry —
including a broken symlink — is already present at `dst`; the error state
at the raise is returned on the left. -/
def placeLinksGo (pdk version : String) : List String → PdkState →
    Except PdkState PdkState
  | [], st => .ok st
  | variant :: rest, st =>
    match alookup st.rootEntries variant with
    | some _ => .error st
    | none =>
      let entries := aset st.rootEntries variant (.symlink (relTarget pdk version variant))
      placeLinksGo pdk version rest { st with rootEntries := entries }

/-- How a modelled operation's Python process ended: a normal return, a
`sys.exit(code)`, or an uncaught exception propagating out. -/
inductive ProcStatus where
  | finished
  | exited (code : Int)
  | raised
deriving Repr, DecidableEq

/-- The whole activation block of `manage.enable` (lines 341–357): clear
the variant paths, then create the fresh relative symlinks, then write the
version name into the marker file. -/
def activate (pdk version : String) (variants : List String) (st : PdkState) :
    PdkState × ProcStatus :=
  let cleared := clearRootGo pdk variants st
  if cleared.2 then (cleared.1, .exited 1)
  else
    match placeLinksGo pdk version variants cleared.1 with
    | .error stE => (stE, .raised)
    | .ok st2 => ({ st2 with marker := some version }, .finished)

/-- The provenance-marker loop of `manage.enable`: for every variant
missing `<variant>/SOURCES`, write that file. `open(..., "w")` raises
`FileNotFoundError` when the variant directory itself is absent from the
version's payload; the state at the raise is returned on the left. -/
def writeSourcesGo (version : String) : List String → PdkState →
    Except PdkState PdkState
  | [], st => .ok st
  | variant :: rest, st =>
    let files := (alookup st.versions version).getD []
    if files.contains (variant ++ "/SOURCES") then
      writeSourcesGo version rest st
    else if files.any (fun f => strStartsWith f (variant ++ "/")) then
      writeSourcesGo version rest (writeVersionFile st version (variant ++ "/SOURCES"))
    else
      .error st

/-- The external Build collaborator's effect on the version directory:
`install_*` runs `mkdirp(version_directory)` and then moves the built
variant trees (here: the oracle `buildFiles`) into it. -/
def installBuild (st : PdkState) (version : String) (buildFiles : List String) :
    PdkState :=
  let st1 :=
    match alookup st.versions version with
    | none => { st with versions := st.versions ++ [(version, [])] }
    | some _ => st
  writeFiles st1 version buildFiles

/-- What the download-and-unpack loop of `manage.enable` did, as an oracle:
either every archive streamed and unpacked (`ok files`, with `files` the
union of the unpacked member paths), or an exception / a keyboard
interrupt struck after `done` archive downloads had been issued and
`files` members had been written. -/
inductive FetchOutcome where
  | ok (files : List String)
  | exn (done : Nat) (files : List String)
  | interrupt (done : Nat) (files : List String)
deriving Repr, DecidableEq

/-- The result of `manage.enable`: the final state, the number of HTTP
requests issued by the fetch engine itself, and how the process ended. -/
structure EnableResult where
  state : PdkState
  requests : Nat
  status : ProcStatus
deriving Repr, DecidableEq

/-- Helper: run the activation block and package an `EnableResult`. -/
def activateResult (pdk version : String) (variants : List String)
    (st : PdkState) (reqs : Nat) : EnableResult :=
  let activated := activate pdk version variants st
  ⟨activated.1, reqs, activated.2⟩

/-- Function `manage.enable`. Network interactions are oracle parameters: `remote`
is what the release-tag endpoint answered (`none` for a ≥ 400 status) and
`fetch` is what the download loop did. The external Build collaborator is
the oracle `buildFiles` (its own network traffic is not part of the fetch
engine's request count; the one failed catalogue query is). Mirrors the
source structure: skip the whole retrieval block when the version
directory exists; otherwise query `get_release_links` (one request;
its `ValueError` propagates uncaught), fall back to build-or-exit when the
release is absent, and otherwise download (one request per archive),
unpack, clean up on exception or interrupt (`shutil.rmtree` then
`exit(-1)`), and write the `SOURCES` provenance markers. Every surviving
path then runs the activation block. -/
def enable (pdk version : String) (build_if_not_found : Bool)
    (include_libraries : Option (List String))
    (remote : Option (List Asset)) (fetch : FetchOutcome)
    (buildFiles : List String) (st : PdkState) : EnableResult :=
  match Family.by_name pdk with
  | none => ⟨st, 0, .exited 64⟩
  | some pdk_family =>
    let variants := pdk_family.variants
    if isInstalledB st version then
      activateResult pdk version variants st 0
    else
      match get_release_links version pdk include_libraries remote with
      | .error _ => ⟨st, 1, .raised⟩
      | .ok none =>
        if build_if_not_found then
          activateResult pdk version variants (installBuild st version buildFiles) 1
        else
          ⟨st, 1, .exited 1⟩
      | .ok (some links) =>
        match fetch with
        | .ok files =>
          let st1 := writeFiles st version files
          match writeSourcesGo version variants st1 with
          | .error stE => ⟨stE, 1 + links.length, .raised⟩
          | .ok st2 => activateResult pdk version variants st2 (1 + links.length)
        | .exn done fetched =>
          ⟨removeVersionDir (writeFiles st version fetched) version,
            1 + done, .exited (-1)⟩
        | .interrupt done fetched =>
          ⟨removeVersionDir (writeFiles st version fetched) version,
            1 + done, .exited (-1)⟩

/-! ## `Version.unset_current` and `Version.uninstall` -/

/-- The unlink loop of `Version.unset_current`: `os.unlink` on each
variant path. `os.unlink` raises `FileNotFoundError` on a missing entry
and `IsADirectoryError` on a directory; the state at the raise is returned
on the left. -/
def unsetCurrentGo : List String → PdkState → Except PdkState PdkState
  | [], st => .ok st
  | variant :: rest, st =>
    match alookup st.rootEntries variant with
    | none => .error st
    | some .dir => .error st
    | some _ =>
      unsetCurrentGo rest { st with rootEntries := aremove st.rootEntries variant }

/-- Method `Version.unset_current`: a no-op unless the version is both installed
and current; otherwise unlink every variant symlink, then `os.unlink` the
marker file. -/
def unset_current (fam : Family) (st : PdkState) (name : String) :
    Except PdkState PdkState :=
  if !(isInstalledB st name) then .ok st
  else if !(isCurrentB st name) then .ok st
  else
    match unsetCurrentGo fam.variants st with
    | .error stE => .error stE
    | .ok st1 =>
      match st1.marker with
      | none => .error st1
      | some _ => .ok { st1 with marker := none }

/-- The exceptions `Version.uninstall` can let escape: its own
"not installed" `ValueError`, or an `OSError` out of the `os.unlink`
calls inside `unset_current`. -/
inductive UninstallError where
  | notInstalled (version pdk : String)
  | osError
deriving Repr, DecidableEq

/-- Method `Version.uninstall`: raise the "not installed" `ValueError` when the
version directory does not exist, else `unset_current` followed by
`shutil.rmtree` of the version directory. Errors carry the state at the
time of the raise. -/
def uninstall (fam : Family) (st : PdkState) (version : String) :
    Except (UninstallError × PdkState) PdkState :=
  if !(isInstalledB st version) then
    .error (.notInstalled version fam.name, st)
  else
    match unset_current fam st version with
    | .error stE => .error (.osError, stE)
    | .ok st1 => .ok (removeVersionDir st1 version)

/-! ## Small helper predicates used by the statements below -/

/-- Convenience constructor mirroring `Version(name, pdk, commit_date)`. -/
def mkVersion (name pdk : String) (commit_date : Option Nat) : Version :=
  { name := name, pdk := pdk, commit_date := commit_date }

/-- Whether an `Except` computation succeeded. -/
def isOkResult {ε α : Type} (r : Except ε α) : Bool :=
  match r with
  | .ok _ => true
  | .error _ => false

/-- The state carried by a state-threaded `Except` computation, whether it
returned or raised. -/
def stateOf (r : Except PdkState PdkState) : PdkState :=
  match r with
  | .ok s => s
  | .error s => s

/-- Whether `uninstall` raised its "not installed" `ValueError`. -/
def isNotInstalledErr
    (r : Except (UninstallError × PdkState) PdkState) : Bool :=
  match r with
  | .error (.notInstalled _ _, _) => true
  | _ => false

/-- The state left behind by `uninstall`, whether it returned or raised. -/
def uninstallStateOf
    (r : Except (UninstallError × PdkState) PdkState) : PdkState :=
  match r with
  | .ok s => s
  | .error (_, s) => s

/-- Whether a root directory entry is a symlink that points into the given
version's directory of the given family. -/
def referencesVersion (pdk version : String) (e : RootEntry) : Bool :=
  match e with
  | .symlink t => strStartsWith t ("volare/" ++ pdk ++ "/versions/" ++ version ++ "/")
  | _ => false

/-! ## Lemmas about the association-list helpers -/

theorem alookup_aset {α : Type} (l : List (String × α)) (k k' : String) (v : α) :
    alookup (aset l k v) k' = if k = k' then some v else alookup l k' := by
  induction l with
  | nil => simp [aset, alookup]
  | cons h t ih =>
    obtain ⟨a, b⟩ := h
    by_cases hak : a = k
    · subst hak
      by_cases hak' : a = k' <;> simp [aset, alookup, hak']
    · by_cases hak' : a = k'
      · subst hak'
        have hk : ¬ (k = a) := fun h => hak h.symm
        simp [aset, alookup, hak, hk]
      · simp [aset, alookup, hak, hak', ih]

theorem alookup_aremove {α : Type} (l : List (String × α)) (k k' : String) :
    alookup (aremove l k) k' = if k = k' then none else alookup l k' := by
  induction l with
  | nil => simp [aremove, alookup]
  | cons h t ih =>
    obtain ⟨a, b⟩ := h
    by_cases hak : a = k
    · subst hak
      by_cases hak' : a = k' <;> simp_all [aremove, alookup]
    · by_cases hak' : a = k'
      · subst hak'
        have hk : ¬ (k = a) := fun h => hak h.symm
        simp [aremove, alookup, hak, hk]
      · simp [aremove, alookup, hak, hak', ih]

/-! ## C6: `resolve_libraries` and the `"all"` sentinel -/

/-- Helper for C6: if every element before an `"all"` sentinel resolves
(it is itself a sentinel or a known library name), the loop short-circuits
to the full library set, whatever the accumulator holds. -/
theorem resolveLibrariesGo_all (fam : Family) (post : List String) (a : String)
    (ha : pyLower a = "all") :
    ∀ (pre : List String) (acc : Finset String),
      (∀ e ∈ pre, pyLower e = "all" ∨ pyLower e = "default" ∨
        fam.all_libraries.contains e = true) →
      resolveLibrariesGo fam (pre ++ a :: post) acc = .ok fam.all_libraries.toFinset := by
  intro pre
  induction pre with
  | nil => intro acc _; simp [resolveLibrariesGo, ha]
  | cons e rest ih =>
    intro acc hpre
    by_cases h1 : pyLower e = "all"
    · simp [resolveLibrariesGo, h1]
    · by_cases h2 : pyLower e = "default"
      · simp only [List.cons_append, resolveLibrariesGo, h1, h2, if_true, if_false]
        exact ih _ (fun x hx => hpre x (List.mem_cons_of_mem e hx))
      · have h3 : fam.all_libraries.contains e = true := by
          rcases hpre e (List.mem_cons_self e rest) with h | h | h
          · exact absurd h h1
          · exact absurd h h2
          · exact h
        simp only [List.cons_append, resolveLibrariesGo, h1, h2, h3, if_true, if_false]
        exact ih _ (fun x hx => hpre x (List.mem_cons_of_mem e hx))

/-- C6, as stated, is false: `resolve_libraries` walks the input left to
right and raises the unknown-library `ValueError` before it ever sees the
`"all"` sentinel, so an input containing `"all"` after an unknown name does
not return the complete library set. -/
theorem c6_counterexample :
    ["bogus", "all"].contains "all" = true ∧
    sky130.resolve_libraries (some ["bogus", "all"]) ≠
      .ok sky130.all_libraries.toFinset := by
  constructor
  · decide
  · decide

/-- C6 (amended): for every family and every input list that contains the
sentinel `"all"` (in any case, at any position), provided every element
before that sentinel is itself a sentinel or a known library name,
`resolve_libraries` returns the family's complete library set. -/
theorem c6_amended (fam : Family) (pre post : List String) (a : String)
    (ha : pyLower a = "all")
    (hpre : ∀ e ∈ pre, pyLower e = "all" ∨ pyLower e = "default" ∨
      fam.all_libraries.contains e = true) :
    fam.resolve_libraries (some (pre ++ a :: post)) =
      .ok fam.all_libraries.toFinset := by
  unfold Family.resolve_libraries
  exact resolveLibrariesGo_all fam post a ha pre ∅ hpre

/-- Witness for C6 (amended) at a concrete input: `"ALL"` in the middle of
otherwise valid elements expands to the full sky130 library set. -/
theorem c6_amended_witness :
    sky130.resolve_libraries
        (some (["default", "sky130_fd_io"] ++ "ALL" :: ["junk"])) =
      .ok sky130.all_libraries.toFinset :=
  c6_amended sky130 ["default", "sky130_fd_io"] ["junk"] "ALL" (by decide)
    (by decide)

/-! ## C7: `Version` ordering by commit date -/

/-- C7: `Version.__lt__` compares by commit date only, a missing date
comparing as the earliest instant; descending-stable sorting of two dated
versions `D1 < D2` and one dateless version therefore yields
`[D2, D1, no-date]` from every input arrangement. -/
theorem c7_version_ordering (n0 n1 n2 p : String) (D1 D2 : Nat)
    (h1 : 0 < D1) (h2 : D1 < D2) :
    sortDesc [mkVersion n0 p none, mkVersion n1 p (some D1), mkVersion n2 p (some D2)] =
        [mkVersion n2 p (some D2), mkVersion n1 p (some D1), mkVersion n0 p none] ∧
    sortDesc [mkVersion n0 p none, mkVersion n2 p (some D2), mkVersion n1 p (some D1)] =
        [mkVersion n2 p (some D2), mkVersion n1 p (some D1), mkVersion n0 p none] ∧
    sortDesc [mkVersion n1 p (some D1), mkVersion n0 p none, mkVersion n2 p (some D2)] =
        [mkVersion n2 p (some D2), mkVersion n1 p (some D1), mkVersion n0 p none] ∧
    sortDesc [mkVersion n1 p (some D1), mkVersion n2 p (some D2), mkVersion n0 p none] =
        [mkVersion n2 p (some D2), mkVersion n1 p (some D1), mkVersion n0 p none] ∧
    sortDesc [mkVersion n2 p (some D2), mkVersion n0 p none, mkVersion n1 p (some D1)] =
        [mkVersion n2 p (some D2), mkVersion n1 p (some D1), mkVersion n0 p none] ∧
    sortDesc [mkVersion n2 p (some D2), mkVersion n1 p (some D1), mkVersion n0 p none] =
        [mkVersion n2 p (some D2), mkVersion n1 p (some D1), mkVersion n0 p none] := by
  have h3 : 0 < D2 := Nat.lt_trans h1 h2
  have h4 : ¬ D2 < D1 := Nat.lt_asymm h2
  have h5 : ¬ D1 < 0 := Nat.not_lt_zero D1
  have h6 : ¬ D2 < 0 := Nat.not_lt_zero D2
  refine ⟨?_, ?_, ?_, ?_, ?_, ?_⟩ <;>
    simp [sortDesc, insertDesc, mkVersion, Version.ltDate, h1, h2, h3, h4, h5, h6]

/-- Witness for C7 at concrete dates 1 < 2. -/
theorem c7_version_ordering_witness :
    sortDesc [mkVersion "x" "p" none, mkVersion "y" "p" (some 1), mkVersion "z" "p" (some 2)] =
      [mkVersion "z" "p" (some 2), mkVersion "y" "p" (some 1), mkVersion "x" "p" none] :=
  (c7_version_ordering "x" "y" "z" "p" 1 2 (by decide) (by decide)).1

/-! ## C10: `get_current` and the marker file -/

/-- C10: `Version.get_current` returns `None` exactly when the marker file
does not exist; a marker file that exists but holds only whitespace yields
a `Version` whose name is the empty string, not `None`. -/
theorem c10_current_marker (pdk : String) :
    (∀ marker : Option String, Version.get_current pdk marker = none ↔ marker = none) ∧
    (∀ s : String, pyStrip s = "" →
      Version.get_current pdk (some s) = some { name := "", pdk := pdk }) := by
  constructor
  · intro marker
    cases marker <;> simp [Version.get_current, getCurrentVersionRaw]
  · intro s hs
    simp [Version.get_current, getCurrentVersionRaw, hs]

/-- Witness for C10: a whitespace-only marker yields the empty-named
version, and a missing marker yields `None`. -/
theorem c10_current_marker_witness :
    Version.get_current "sky130" (some " \n") = some { name := "", pdk := "sky130" } ∧
    Version.get_current "sky130" none = none :=
  ⟨(c10_current_marker "sky130").2 " \n" (by decide),
    ((c10_current_marker "sky130").1 none).mpr rfl⟩

/-! ## C9: the dead "release is malformed" branch of `get_release_links` -/

/-- C9: no execution of `get_release_links` can reach the final
"release is malformed" exception, because the local `scl_filter` variable
is never `None` at that point (a `None` argument was replaced by the
family's `default_includes` before any request); when the release exists
but no matching archive asset is found, the `ValueError` naming the
requested standard cell libraries is raised instead (second conjunct:
the empty-assets instance of that). -/
theorem c9_malformed_unreachable :
    (∀ (version pdk : String) (scl_filter : Option (List String))
        (remote : Option (List Asset)),
      isMalformedResult (get_release_links version pdk scl_filter remote) = false) ∧
    (∀ (version pdk : String) (f : List String),
      get_release_links version pdk (some f) (some []) = .error (.noFiles f)) := by
  constructor
  · intro version pdk scl remote
    cases scl with
    | some f =>
      cases remote with
      | none => rfl
      | some assets =>
        simp only [get_release_links]
        split
        · rfl
        · split <;> rfl
    | none =>
      cases hby : Family.by_name pdk with
      | none =>
        cases remote <;> simp [get_release_links, hby, isMalformedResult]
      | some fam =>
        cases remote with
        | none => simp [get_release_links, hby, isMalformedResult]
        | some assets =>
          simp only [get_release_links, hby]
          split
          · rfl
          · split <;> rfl
  · intro version pdk f
    rfl

/-! ## C8: remote catalogue resolution and malformed tags -/

/-- Helper for C8: the loop of `_from_github` succeeds exactly when every
non-draft release tag splits into exactly two components. -/
theorem fromGithubGo_isOk (releases : List Release) :
    ∀ acc : List (String × List Version),
      isOkResult (fromGithubGo releases acc) =
        releases.all fun r => r.draft || ((pySplit r.tag_name '-').length == 2) := by
  induction releases with
  | nil => intro acc; rfl
  | cons r rest ih =>
    intro acc
    by_cases hd : r.draft
    · simp [fromGithubGo, hd, ih]
    · cases hsplit : pySplit r.tag_name '-' with
      | nil => simp [fromGithubGo, hd, hsplit, isOkResult]
      | cons a tl =>
        cases tl with
        | nil => simp [fromGithubGo, hd, hsplit, isOkResult]
        | cons b tl2 =>
          cases tl2 with
          | nil => simp [fromGithubGo, hd, hsplit, ih]
          | cons c tl3 => simp [fromGithubGo, hd, hsplit, isOkResult]

/-- C8 fails as stated: a non-draft release whose tag has no separator is
not skipped; the tuple unpacking of `release["tag_name"].split("-")`
raises a `ValueError` that aborts the whole catalogue resolution. -/
theorem c8_counterexample :
    fromGithub [{ draft := false, tag_name := "sky130", published_at := 5,
                  body_commit_date := none, prerelease := false }] =
      .error ("not enough values to unpack: sky130") := by
  decide

/-- C8 (amended): draft releases are skipped, and when every non-draft
release tag parses into exactly two components the catalogue resolution
succeeds, grouping per family in first-appearance order and sorting each
group newest-first (third conjunct: a concrete grouped, out-of-order
instance); but a single non-draft release with a malformed tag makes the
whole resolution raise instead of being skipped (second conjunct gives the
exact success condition). -/
theorem c8_amended :
    (∀ (r : Release) (rest : List Release) (acc : List (String × List Version)),
        r.draft = true → fromGithubGo (r :: rest) acc = fromGithubGo rest acc) ∧
    (∀ releases : List Release,
        isOkResult (fromGithub releases) =
          releases.all fun r => r.draft || ((pySplit r.tag_name '-').length == 2)) ∧
    (fromGithub
        [ { draft := false, tag_name := "sky130-old", published_at := 1,
            body_commit_date := some 10, prerelease := false }
        , { draft := true, tag_name := "gf180mcu-skipme", published_at := 2,
            body_commit_date := some 99, prerelease := false }
        , { draft := false, tag_name := "gf180mcu-only", published_at := 3,
            body_commit_date := some 5, prerelease := false }
        , { draft := false, tag_name := "sky130-new", published_at := 4,
            body_commit_date := some 20, prerelease := true } ] =
      .ok
        [ ("sky130",
            [ { name := "new", pdk := "sky130", commit_date := some 20,
                upload_date := some 4, prerelease := true }
            , { name := "old", pdk := "sky130", commit_date := some 10,
                upload_date := some 1, prerelease := false } ])
        , ("gf180mcu",
            [ { name := "only", pdk := "gf180mcu", commit_date := some 5,
                upload_date := some 3, prerelease := false } ]) ]) := by
  refine ⟨?_, ?_, ?_⟩
  · intro r rest acc h
    simp [fromGithubGo, h]
  · intro releases
    exact fromGithubGo_isOk releases []
  · decide

/-- Witness for C8 (amended): the draft-skip equation at a concrete draft
release, and the success condition at a concrete mixed list (well-formed
non-draft, draft, malformed non-draft). -/
theorem c8_amended_witness :
    fromGithubGo
        [{ draft := true, tag_name := "whatever", published_at := 0,
           body_commit_date := none, prerelease := false }] [] =
      fromGithubGo [] [] ∧
    isOkResult (fromGithub
        [ { draft := false, tag_name := "sky130-abc", published_at := 5,
            body_commit_date := none, prerelease := false }
        , { draft := true, tag_name := "zzz", published_at := 9,
            body_commit_date := none, prerelease := false }
        , { draft := false, tag_name := "bad", published_at := 1,
            body_commit_date := none, prerelease := false } ]) =
      ([ { draft := false, tag_name := "sky130-abc", published_at := 5,
           body_commit_date := none, prerelease := false }
       , { draft := true, tag_name := "zzz", published_at := 9,
           body_commit_date := none, prerelease := false }
       , { draft := false, tag_name := "bad", published_at := 1,
           body_commit_date := none, prerelease := false } ] : List Release).all
        (fun r => r.draft || ((pySplit r.tag_name '-').length == 2)) :=
  ⟨c8_amended.1 _ [] [] rfl, c8_amended.2.1 _⟩

/-! ## Lemmas about the activation block -/

theorem clearRootGo_fields (pdk : String) (variants : List String) :
    ∀ st : PdkState, (clearRootGo pdk variants st).1.versions = st.versions ∧
      (clearRootGo pdk variants st).1.marker = st.marker := by
  induction variants with
  | nil => intro st; exact ⟨rfl, rfl⟩
  | cons v rest ih =>
    intro st
    cases hv : alookup st.rootEntries v with
    | none =>
      simp only [clearRootGo, hv]
      exact ih st
    | some e =>
      cases e with
      | symlink t =>
        simp only [clearRootGo, hv]
        split
        · exact ih _
        · exact ih st
      | file => simp [clearRootGo, hv]
      | dir => simp [clearRootGo, hv]

theorem clearRootGo_preserves_nonlink (pdk : String) (variants : List String) :
    ∀ (st : PdkState) (k : String) (e : RootEntry),
      (e = .file ∨ e = .dir) →
      alookup st.rootEntries k = some e →
      alookup (clearRootGo pdk variants st).1.rootEntries k = some e := by
  induction variants with
  | nil => intro st k e _ h; exact h
  | cons v rest ih =>
    intro st k e he h
    cases hv : alookup st.rootEntries v with
    | none =>
      simp only [clearRootGo, hv]
      exact ih st k e he h
    | some ev =>
      cases ev with
      | symlink t =>
        simp only [clearRootGo, hv]
        split
        · apply ih _ k e he
          have hvk : ¬ (v = k) := by
            intro hvk
            subst hvk
            rw [h] at hv
            rcases he with he | he <;>
              (subst he; exact RootEntry.noConfusion (Option.some.inj hv))
          show alookup (aremove st.rootEntries v) k = some e
          rw [alookup_aremove, if_neg hvk]
          exact h
        · exact ih st k e he h
      | file => simp only [clearRootGo, hv]; exact h
      | dir => simp only [clearRootGo, hv]; exact h

theorem clearRootGo_conflict (pdk : String) (variants : List String) :
    ∀ (st : PdkState) (k : String) (e : RootEntry),
      k ∈ variants → (e = .file ∨ e = .dir) →
      alookup st.rootEntries k = some e →
      (clearRootGo pdk variants st).2 = true := by
  induction variants with
  | nil => intro st k e hk; exact absurd hk (List.not_mem_nil k)
  | cons v rest ih =>
    intro st k e hk he h
    by_cases hvk : v = k
    · subst hvk
      rcases he with he | he <;> (subst he; simp only [clearRootGo, h])
    · have hkr : k ∈ rest := by
        rcases List.mem_cons.mp hk with h1 | h1
        · exact absurd h1.symm hvk
        · exact h1
      cases hv : alookup st.rootEntries v with
      | none =>
        simp only [clearRootGo, hv]
        exact ih st k e hkr he h
      | some ev =>
        cases ev with
        | symlink t =>
          simp only [clearRootGo, hv]
          split
          · apply ih _ k e hkr he
            show alookup (aremove st.rootEntries v) k = some e
            rw [alookup_aremove, if_neg hvk]
            exact h
          · exact ih st k e hkr he h
        | file => simp only [clearRootGo, hv]
        | dir => simp only [clearRootGo, hv]

theorem clearRootGo_clean (pdk : String) (variants : List String) :
    ∀ st : PdkState,
      (∀ v ∈ variants, ∀ e, alookup st.rootEntries v = some e →
        ∃ t, e = .symlink t ∧ targetResolves st pdk t = true) →
      (clearRootGo pdk variants st).2 = false ∧
      ∀ k, alookup (clearRootGo pdk variants st).1.rootEntries k =
        if k ∈ variants then none else alookup st.rootEntries k := by
  induction variants with
  | nil =>
    intro st _
    refine ⟨rfl, fun k => ?_⟩
    simp [clearRootGo]
  | cons v rest ih =>
    intro st hclean
    cases hv : alookup st.rootEntries v with
    | none =>
      obtain ⟨h2, hlook⟩ :=
        ih st (fun v' hv' e he => hclean v' (List.mem_cons_of_mem v hv') e he)
      simp only [clearRootGo, hv]
      refine ⟨h2, fun k => ?_⟩
      rw [hlook k]
      by_cases hkr : k ∈ rest
      · simp [hkr]
      · by_cases hkv : k = v
        · subst hkv
          simp [hkr, hv]
        · simp [hkr, List.mem_cons, hkv]
    | some ev =>
      obtain ⟨t, het, hres⟩ := hclean v (List.mem_cons_self v rest) ev hv
      subst het
      simp only [clearRootGo, hv, hres, if_true]
      obtain ⟨h2, hlook⟩ :=
        ih { st with rootEntries := aremove st.rootEntries v } (fun v' hv' e he => by
          by_cases hv'v : v = v'
          · exfalso
            simp only [alookup_aremove, if_pos hv'v] at he
            exact Option.noConfusion he
          · apply hclean v' (List.mem_cons_of_mem v hv') e
            simpa [alookup_aremove, hv'v] using he)
      refine ⟨h2, fun k => ?_⟩
      rw [hlook k]
      by_cases hkr : k ∈ rest
      · simp [hkr]
      · by_cases hkv : k = v
        · subst hkv
          simp [hkr, alookup_aremove]
        · have hvk : ¬ (v = k) := fun h => hkv h.symm
          simp [hkr, List.mem_cons, hkv, alookup_aremove, hvk]

theorem placeLinksGo_fields (pdk version : String) (variants : List String) :
    ∀ st : PdkState,
      (stateOf (placeLinksGo pdk version variants st)).versions = st.versions ∧
      (stateOf (placeLinksGo pdk version variants st)).marker = st.marker := by
  induction variants with
  | nil => intro st; exact ⟨rfl, rfl⟩
  | cons v rest ih =>
    intro st
    simp only [placeLinksGo]
    cases alookup st.rootEntries v with
    | some e => exact ⟨rfl, rfl⟩
    | none => exact ih _

theorem placeLinksGo_preserved_notmem (pdk version : String)
    (variants : List String) :
    ∀ (st st' : PdkState) (k : String), ¬ (k ∈ variants) →
      placeLinksGo pdk version variants st = .ok st' →
      alookup st'.rootEntries k = alookup st.rootEntries k := by
  induction variants with
  | nil =>
    intro st st' k _ h
    cases h
    rfl
  | cons v rest ih =>
    intro st st' k hk h
    have hkv : ¬ (k = v) := fun he => hk (by simp [he])
    have hkr : ¬ (k ∈ rest) := fun he => hk (List.mem_cons_of_mem v he)
    simp only [placeLinksGo] at h
    cases hv : alookup st.rootEntries v with
    | some e => rw [hv] at h; exact Except.noConfusion h
    | none =>
      rw [hv] at h
      have := ih _ st' k hkr h
      rw [this]
      show alookup (aset st.rootEntries v _) k = alookup st.rootEntries k
      rw [alookup_aset]
      have hvk : ¬ (v = k) := fun he => hkv he.symm
      rw [if_neg hvk]

theorem placeLinksGo_ok_lookup (pdk version : String) (variants : List String) :
    ∀ (st st' : PdkState), placeLinksGo pdk version variants st = .ok st' →
      ∀ v ∈ variants, alookup st'.rootEntries v =
        some (.symlink (relTarget pdk version v)) := by
  induction variants with
  | nil => intro st st' _ v hv; exact absurd hv (List.not_mem_nil v)
  | cons h rest ih =>
    intro st st' hok v hv
    simp only [placeLinksGo] at hok
    cases hh : alookup st.rootEntries h with
    | some e => rw [hh] at hok; exact Except.noConfusion hok
    | none =>
      rw [hh] at hok
      by_cases hvr : v ∈ rest
      · exact ih _ st' hok v hvr
      · have hvh : v = h := by
          rcases List.mem_cons.mp hv with h1 | h1
          · exact h1
          · exact absurd h1 hvr
        subst hvh
        rw [placeLinksGo_preserved_notmem pdk version rest _ st' v hvr hok]
        rw [alookup_aset, if_pos rfl]

theorem activate_fields (pdk version : String) (variants : List String)
    (st : PdkState) :
    (activate pdk version variants st).1.versions = st.versions := by
  have hcf := clearRootGo_fields pdk variants st
  simp only [activate]
  split
  · exact hcf.1
  · cases hp : placeLinksGo pdk version variants (clearRootGo pdk variants st).1 with
    | error stE =>
      have hpf := (placeLinksGo_fields pdk version variants (clearRootGo pdk variants st).1).1
      rw [hp] at hpf
      simp only [hp]
      exact hpf.trans hcf.1
    | ok st2 =>
      have hpf := (placeLinksGo_fields pdk version variants (clearRootGo pdk variants st).1).1
      rw [hp] at hpf
      simp only [hp]
      exact hpf.trans hcf.1

theorem activate_finished_post (pdk version : String) (variants : List String)
    (st : PdkState) :
    (activate pdk version variants st).2 = .finished →
    (activate pdk version variants st).1.marker = some version ∧
    ∀ v ∈ variants, alookup (activate pdk version variants st).1.rootEntries v =
      some (.symlink (relTarget pdk version v)) := by
  simp only [activate]
  split
  · intro h
    exact absurd h (by simp)
  · cases hp : placeLinksGo pdk version variants (clearRootGo pdk variants st).1 with
    | error stE =>
      simp only [hp]
      intro h
      exact absurd h (by simp)
    | ok st2 =>
      simp only [hp]
      intro _
      refine ⟨by trivial, fun v hv => ?_⟩
      exact placeLinksGo_ok_lookup pdk version variants _ st2 hp v hv

theorem activate_conflict (pdk version : String) (variants : List String)
    (st : PdkState) (k : String) (e : RootEntry)
    (hk : k ∈ variants) (he : e = .file ∨ e = .dir)
    (h : alookup st.rootEntries k = some e) :
    (activate pdk version variants st).2 = .exited 1 ∧
    alookup (activate pdk version variants st).1.rootEntries k = some e ∧
    (activate pdk version variants st).1.marker = st.marker := by
  have hc := clearRootGo_conflict pdk variants st k e hk he h
  simp only [activate, hc, if_true]
  exact ⟨by trivial, clearRootGo_preserves_nonlink pdk variants st k e he h,
    (clearRootGo_fields pdk variants st).2⟩

theorem placeLinksGo_none_ok (pdk version : String) (variants : List String) :
    ∀ st : PdkState, variants.Nodup →
      (∀ v ∈ variants, alookup st.rootEntries v = none) →
      isOkResult (placeLinksGo pdk version variants st) = true := by
  induction variants with
  | nil => intro st _ _; rfl
  | cons h rest ih =>
    intro st hnd hnone
    simp only [placeLinksGo]
    rw [hnone h (List.mem_cons_self h rest)]
    apply ih
    · exact (List.nodup_cons.mp hnd).2
    · intro v hv
      have hvh : ¬ (h = v) := by
        intro he
        exact (List.nodup_cons.mp hnd).1 (he ▸ hv)
      show alookup (aset st.rootEntries h _) v = none
      rw [alookup_aset, if_neg hvh]
      exact hnone v (List.mem_cons_of_mem h hv)

theorem activate_clean_success (pdk version : String) (variants : List String)
    (st : PdkState) (hnd : variants.Nodup)
    (hclean : ∀ v ∈ variants, ∀ e, alookup st.rootEntries v = some e →
      ∃ t, e = .symlink t ∧ targetResolves st pdk t = true) :
    (activate pdk version variants st).2 = .finished := by
  obtain ⟨h2, hlook⟩ := clearRootGo_clean pdk variants st hclean
  have hok := placeLinksGo_none_ok pdk version variants (clearRootGo pdk variants st).1
    hnd (fun v hv => by rw [hlook v]; simp [hv])
  simp only [activate, h2, Bool.false_eq_true, if_false]
  cases hp : placeLinksGo pdk version variants (clearRootGo pdk variants st).1 with
  | error stE =>
    rw [hp] at hok
    exact absurd hok (by simp [isOkResult])
  | ok st2 => simp only [hp]

/-! ## Lemmas about version-directory writes -/

theorem alookup_append_of_none {α : Type} (l m : List (String × α)) (k : String)
    (h : alookup l k = none) : alookup (l ++ m) k = alookup m k := by
  induction l with
  | nil => rfl
  | cons p rest ih =>
    obtain ⟨a, b⟩ := p
    by_cases hak : a = k
    · simp [alookup, hak] at h
    · simp only [List.cons_append, alookup, if_neg hak] at h ⊢
      exact ih h

theorem alookup_append_of_some {α : Type} (l m : List (String × α)) (k : String)
    (v : α) (h : alookup l k = some v) : alookup (l ++ m) k = some v := by
  induction l with
  | nil => exact Option.noConfusion h
  | cons p rest ih =>
    obtain ⟨a, b⟩ := p
    by_cases hak : a = k
    · simp only [List.cons_append, alookup, if_pos hak] at h ⊢
      exact h
    · simp only [List.cons_append, alookup, if_neg hak] at h ⊢
      exact ih h

theorem writeVersionFile_fields (st : PdkState) (version path : String) :
    (writeVersionFile st version path).rootEntries = st.rootEntries ∧
    (writeVersionFile st version path).marker = st.marker := by
  cases hv : alookup st.versions version with
  | none => simp only [writeVersionFile, hv]; exact ⟨by trivial, by trivial⟩
  | some files =>
    simp only [writeVersionFile, hv]
    split
    · exact ⟨by trivial, by trivial⟩
    · exact ⟨by trivial, by trivial⟩

theorem writeVersionFile_installed_mono (st : PdkState) (version path v : String)
    (h : isInstalledB st v = true) :
    isInstalledB (writeVersionFile st version path) v = true := by
  unfold isInstalledB at h ⊢
  cases hv : alookup st.versions version with
  | none =>
    simp only [writeVersionFile, hv]
    obtain ⟨x, hx⟩ := Option.isSome_iff_exists.mp h
    show (alookup (st.versions ++ [(version, [path])]) v).isSome = true
    rw [alookup_append_of_some _ _ _ _ hx]
    rfl
  | some files =>
    simp only [writeVersionFile, hv]
    split
    · exact h
    · show (alookup (aset st.versions version (files ++ [path])) v).isSome = true
      rw [alookup_aset]
      by_cases hvv : version = v <;> simp [hvv, h]

theorem writeFiles_fields (version : String) (files : List String) :
    ∀ st, (writeFiles st version files).rootEntries = st.rootEntries ∧
      (writeFiles st version files).marker = st.marker := by
  induction files with
  | nil => intro st; exact ⟨rfl, rfl⟩
  | cons f rest ih =>
    intro st
    have h1 := writeVersionFile_fields st version f
    have h2 := ih (writeVersionFile st version f)
    exact ⟨h2.1.trans h1.1, h2.2.trans h1.2⟩

theorem writeFiles_installed_mono (version : String) (files : List String) :
    ∀ st v, isInstalledB st v = true →
      isInstalledB (writeFiles st version files) v = true := by
  induction files with
  | nil => intro st v h; exact h
  | cons f rest ih =>
    intro st v h
    exact ih _ v (writeVersionFile_installed_mono st version f v h)

theorem installBuild_installed (st : PdkState) (version : String)
    (bf : List String) : isInstalledB (installBuild st version bf) version = true := by
  cases hv : alookup st.versions version with
  | none =>
    simp only [installBuild, hv]
    apply writeFiles_installed_mono
    show (alookup (st.versions ++ [(version, [])]) version).isSome = true
    rw [alookup_append_of_none _ _ _ hv]
    simp [alookup]
  | some files =>
    simp only [installBuild, hv]
    apply writeFiles_installed_mono
    unfold isInstalledB
    simp [hv]

/-! ## Lemmas about the `SOURCES` loop -/

theorem writeSourcesGo_fields (version : String) (variants : List String) :
    ∀ st, (stateOf (writeSourcesGo version variants st)).rootEntries = st.rootEntries ∧
      (stateOf (writeSourcesGo version variants st)).marker = st.marker := by
  induction variants with
  | nil => intro st; exact ⟨rfl, rfl⟩
  | cons v rest ih =>
    intro st
    simp only [writeSourcesGo]
    split
    · exact ih st
    · split
      · have h1 := writeVersionFile_fields st version (v ++ "/SOURCES")
        have h2 := ih (writeVersionFile st version (v ++ "/SOURCES"))
        exact ⟨h2.1.trans h1.1, h2.2.trans h1.2⟩
      · exact ⟨rfl, rfl⟩

theorem writeSourcesGo_ok_mono (version : String) (variants : List String) :
    ∀ st st', writeSourcesGo version variants st = .ok st' →
      isInstalledB st version = true → isInstalledB st' version = true := by
  induction variants with
  | nil =>
    intro st st' h hi
    cases h
    exact hi
  | cons v rest ih =>
    intro st st' h hi
    simp only [writeSourcesGo] at h
    split at h
    · exact ih st st' h hi
    · split at h
      · exact ih _ st' h (writeVersionFile_installed_mono _ _ _ _ hi)
      · exact Except.noConfusion h

theorem writeSourcesGo_ok_installed (version v0 : String) (rest : List String) :
    ∀ st st', writeSourcesGo version (v0 :: rest) st = .ok st' →
      isInstalledB st' version = true := by
  intro st st' h
  simp only [writeSourcesGo] at h
  split at h
  · rename_i hcont
    have hinst : isInstalledB st version = true := by
      unfold isInstalledB
      cases hv : alookup st.versions version with
      | none => rw [hv] at hcont; simp at hcont
      | some files => simp
    exact writeSourcesGo_ok_mono version rest st st' h hinst
  · split at h
    · rename_i hany
      have hinst : isInstalledB st version = true := by
        unfold isInstalledB
        cases hv : alookup st.versions version with
        | none => rw [hv] at hany; simp at hany
        | some files => simp
      exact writeSourcesGo_ok_mono version rest _ st' h
        (writeVersionFile_installed_mono _ _ _ _ hinst)
    · exact Except.noConfusion h

/-! ## Lemmas about `unset_current` -/

theorem unsetCurrentGo_fields (variants : List String) :
    ∀ st, (stateOf (unsetCurrentGo variants st)).versions = st.versions ∧
      (stateOf (unsetCurrentGo variants st)).marker = st.marker := by
  induction variants with
  | nil => intro st; exact ⟨rfl, rfl⟩
  | cons v rest ih =>
    intro st
    cases hv : alookup st.rootEntries v with
    | none => simp only [unsetCurrentGo, hv]; exact ⟨by trivial, by trivial⟩
    | some e =>
      cases e with
      | dir => simp only [unsetCurrentGo, hv]; exact ⟨by trivial, by trivial⟩
      | symlink t => simp only [unsetCurrentGo, hv]; exact ih _
      | file => simp only [unsetCurrentGo, hv]; exact ih _

theorem unsetCurrentGo_ok (variants : List String) :
    ∀ st, variants.Nodup →
      (∀ v ∈ variants, ∃ t, alookup st.rootEntries v = some (.symlink t)) →
      ∃ st', unsetCurrentGo variants st = .ok st' ∧
        ∀ k, alookup st'.rootEntries k =
          if k ∈ variants then none else alookup st.rootEntries k := by
  induction variants with
  | nil =>
    intro st _ _
    exact ⟨st, rfl, fun k => by simp⟩
  | cons v rest ih =>
    intro st hnd hsym
    obtain ⟨t, ht⟩ := hsym v (List.mem_cons_self v rest)
    obtain ⟨hvr, hndr⟩ := List.nodup_cons.mp hnd
    obtain ⟨st', hok, hlook⟩ :=
      ih { st with rootEntries := aremove st.rootEntries v } hndr (fun v' hv' => by
        obtain ⟨t', ht'⟩ := hsym v' (List.mem_cons_of_mem v hv')
        refine ⟨t', ?_⟩
        show alookup (aremove st.rootEntries v) v' = _
        rw [alookup_aremove]
        have hne : ¬ (v = v') := fun he => hvr (he ▸ hv')
        rw [if_neg hne]
        exact ht')
    refine ⟨st', ?_, ?_⟩
    · simp only [unsetCurrentGo, ht]
      exact hok
    · intro k
      rw [hlook k]
      by_cases hkr : k ∈ rest
      · simp [hkr]
      · by_cases hkv : k = v
        · subst hkv
          simp [hkr, alookup_aremove]
        · have hvk : ¬ (v = k) := fun he => hkv he.symm
          simp [hkr, List.mem_cons, hkv, alookup_aremove, hvk]

/-! ## Lemmas about `enable` -/

theorem enable_skip (pdk version : String) (bnf : Bool) (il : Option (List String))
    (remote : Option (List Asset)) (fetch : FetchOutcome) (bf : List String)
    (st : PdkState) (h : isInstalledB st version = true) :
    (enable pdk version bnf il remote fetch bf st).requests = 0 ∧
    (enable pdk version bnf il remote fetch bf st).state.versions = st.versions := by
  cases hby : Family.by_name pdk with
  | none =>
    simp only [enable, hby]
    exact ⟨by trivial, by trivial⟩
  | some fam =>
    simp only [enable, hby, h, if_true]
    exact ⟨by trivial, activate_fields pdk version fam.variants st⟩

theorem enable_as_activate (pdk version : String) (fam : Family) (bnf : Bool)
    (il : Option (List String)) (remote : Option (List Asset))
    (fetch : FetchOutcome) (bf : List String) (st : PdkState)
    (hby : Family.by_name pdk = some fam)
    (hfin : (enable pdk version bnf il remote fetch bf st).status = .finished) :
    ∃ stMid reqs, enable pdk version bnf il remote fetch bf st =
      activateResult pdk version fam.variants stMid reqs ∧
      (fam.variants ≠ [] → isInstalledB stMid version = true) := by
  by_cases hinst : isInstalledB st version = true
  · refine ⟨st, 0, ?_, fun _ => hinst⟩
    simp only [enable, hby, hinst, if_true]
  · have hinst2 : isInstalledB st version = false := by
      cases hb : isInstalledB st version
      · rfl
      · exact absurd hb hinst
    simp only [enable, hby, hinst2, Bool.false_eq_true, if_false] at hfin ⊢
    revert hfin
    cases hgrl : get_release_links version pdk il remote with
    | error e =>
      intro hfin
      simp at hfin
    | ok olinks =>
      cases olinks with
      | none =>
        cases bnf with
        | false =>
          intro hfin
          simp at hfin
        | true =>
          intro _
          exact ⟨installBuild st version bf, 1, rfl,
            fun _ => installBuild_installed st version bf⟩
      | some links =>
        cases fetch with
        | ok files =>
          cases hws : writeSourcesGo version fam.variants (writeFiles st version files) with
          | error stE =>
            intro hfin
            simp [hws] at hfin
          | ok st2 =>
            intro _
            try simp only [hws]
            refine ⟨st2, 1 + links.length, rfl, fun hvne => ?_⟩
            obtain ⟨v0, rest, hv⟩ := List.exists_cons_of_ne_nil hvne
            rw [hv] at hws
            exact writeSourcesGo_ok_installed version v0 rest _ st2 hws
        | exn d pf =>
          intro hfin
          simp at hfin
        | interrupt d pf =>
          intro hfin
          simp at hfin

/-! ## C1: idempotence of fetch -/

/-- C1: when the version directory already exists, `enable` performs no
network request and leaves every version directory untouched (first
conjunct); consequently, after any `enable` for a registered family (with
its non-empty variant list) finishes normally, a second `enable` for the
same version — whatever its oracle answers — performs zero network
requests (second conjunct). -/
theorem c1_fetch_idempotent :
    (∀ (pdk version : String) (bnf : Bool) (il : Option (List String))
        (remote : Option (List Asset)) (fetch : FetchOutcome) (bf : List String)
        (st : PdkState),
      isInstalledB st version = true →
      (enable pdk version bnf il remote fetch bf st).requests = 0 ∧
      (enable pdk version bnf il remote fetch bf st).state.versions = st.versions) ∧
    (∀ (pdk version : String) (fam : Family) (bnf : Bool) (il : Option (List String))
        (remote : Option (List Asset)) (fetch : FetchOutcome) (bf : List String)
        (st : PdkState) (bnf2 : Bool) (il2 : Option (List String))
        (remote2 : Option (List Asset)) (fetch2 : FetchOutcome) (bf2 : List String),
      Family.by_name pdk = some fam → fam.variants ≠ [] →
      (enable pdk version bnf il remote fetch bf st).status = .finished →
      (enable pdk version bnf2 il2 remote2 fetch2 bf2
        (enable pdk version bnf il remote fetch bf st).state).requests = 0) := by
  constructor
  · intro pdk version bnf il remote fetch bf st h
    exact enable_skip pdk version bnf il remote fetch bf st h
  · intro pdk version fam bnf il remote fetch bf st bnf2 il2 remote2 fetch2 bf2 hby hvne hfin
    obtain ⟨stMid, reqs, heq, hins⟩ :=
      enable_as_activate pdk version fam bnf il remote fetch bf st hby hfin
    have hinstRes :
        isInstalledB (enable pdk version bnf il remote fetch bf st).state version = true := by
      rw [heq]
      show (alookup (activateResult pdk version fam.variants stMid reqs).state.versions
        version).isSome = true
      have hv := activate_fields pdk version fam.variants stMid
      rw [show (activateResult pdk version fam.variants stMid reqs).state.versions =
        stMid.versions from hv]
      exact hins hvne
    exact (enable_skip pdk version bnf2 il2 remote2 fetch2 bf2 _ hinstRes).1

/-- Witness for C1: a skip-path call performs zero requests, and a second
call right after a successful fetch performs zero requests. -/
theorem c1_fetch_idempotent_witness :
    (enable "sky130" "v1" false none none (.ok []) []
        ⟨[("v1", ["sky130A/x"])], [], none⟩).requests = 0 ∧
    (enable "sky130" "v1" true (some ["all"]) none (.interrupt 0 []) []
        (enable "sky130" "v1" false none
          (some [⟨"common.tar.zst", "u"⟩])
          (.ok ["sky130A/libs.tech/a", "sky130B/libs.tech/b"]) []
          ⟨[], [], none⟩).state).requests = 0 :=
  ⟨(c1_fetch_idempotent.1 "sky130" "v1" false none none (.ok []) []
      ⟨[("v1", ["sky130A/x"])], [], none⟩ (by decide)).1,
   c1_fetch_idempotent.2 "sky130" "v1" sky130 false none
     (some [⟨"common.tar.zst", "u"⟩])
     (.ok ["sky130A/libs.tech/a", "sky130B/libs.tech/b"]) []
     ⟨[], [], none⟩ true (some ["all"]) none (.interrupt 0 []) []
     (by decide) (by decide) (by decide)⟩

/-! ## C2: cleanup of partial state on failed retrieval -/

/-- C2: when the version directory did not exist and the remote release
was found, an exception or keyboard interrupt during download or unpacking
leaves the version directory recursively removed (the version does not
appear installed afterwards) and the process exits with `-1`. -/
theorem c2_cleanup_on_failure (pdk version : String) (fam : Family) (bnf : Bool)
    (il : Option (List String)) (remote : Option (List Asset)) (fetch : FetchOutcome)
    (bf : List String) (st : PdkState) (links : List (String × String))
    (d : Nat) (pf : List String)
    (hby : Family.by_name pdk = some fam)
    (hinst : isInstalledB st version = false)
    (hgrl : get_release_links version pdk il remote = .ok (some links))
    (hf : fetch = .exn d pf ∨ fetch = .interrupt d pf) :
    isInstalledB (enable pdk version bnf il remote fetch bf st).state version = false ∧
    (enable pdk version bnf il remote fetch bf st).status = .exited (-1) := by
  have hred : enable pdk version bnf il remote fetch bf st =
      ⟨removeVersionDir (writeFiles st version pf) version, 1 + d, .exited (-1)⟩ := by
    rcases hf with hf | hf <;> subst hf <;>
      simp [enable, hby, hinst, hgrl]
  rw [hred]
  constructor
  · show (alookup (aremove (writeFiles st version pf).versions version) version).isSome
      = false
    rw [alookup_aremove, if_pos rfl]
    rfl
  · rfl

/-- Witness for C2: an interrupt after one partial archive leaves nothing
installed and exit code `-1`. -/
theorem c2_cleanup_on_failure_witness :
    isInstalledB (enable "sky130" "v1" false none (some [⟨"common.tar.zst", "u"⟩])
      (.exn 1 ["sky130A/z"]) [] ⟨[], [], none⟩).state "v1" = false ∧
    (enable "sky130" "v1" false none (some [⟨"common.tar.zst", "u"⟩])
      (.exn 1 ["sky130A/z"]) [] ⟨[], [], none⟩).status = .exited (-1) :=
  c2_cleanup_on_failure "sky130" "v1" sky130 false none
    (some [⟨"common.tar.zst", "u"⟩]) (.exn 1 ["sky130A/z"]) [] ⟨[], [], none⟩
    [("common.tar.zst", "u")] 1 ["sky130A/z"]
    (by decide) (by decide) (by decide) (Or.inl rfl)

/-! ## C3: the activation postcondition -/

/-- C3 fails as stated: the variant symlink target read back with
`readlink` is `volare/<family>/versions/<v>/<variant>` relative to the PDK
root — the version directories live under `<pdk_root>/volare/<family>`,
not under `<pdk_root>` directly — so it is not `versions/<v>/<variant>`. -/
theorem c3_counterexample :
    alookup (enable "sky130" "v1" false none none (.ok []) []
        ⟨[("v1", ["sky130A/x", "sky130B/y"])], [], none⟩).state.rootEntries "sky130A" =
      some (.symlink "volare/sky130/versions/v1/sky130A") ∧
    "volare/sky130/versions/v1/sky130A" ≠ "versions/v1/sky130A" := by
  constructor
  · decide
  · decide

/-- C3 (amended): after `enable` finishes normally for a registered
family, the marker file contains exactly the version name and each variant
symlink, read with `readlink`, resolves (relative to the PDK root) to
`volare/<family>/versions/<v>/<variant>` (first conjunct); activating `v1`
then `v2` from a clean state leaves the marker at exactly `v2` and no
symlink referencing `v1` (second conjunct, concrete scenario). -/
theorem c3_amended :
    (∀ (pdk version : String) (fam : Family) (bnf : Bool) (il : Option (List String))
        (remote : Option (List Asset)) (fetch : FetchOutcome) (bf : List String)
        (st : PdkState),
      Family.by_name pdk = some fam →
      (enable pdk version bnf il remote fetch bf st).status = .finished →
      (enable pdk version bnf il remote fetch bf st).state.marker = some version ∧
      ∀ v ∈ fam.variants,
        alookup (enable pdk version bnf il remote fetch bf st).state.rootEntries v =
          some (.symlink (relTarget pdk version v))) ∧
    (let r1 := enable "sky130" "v1" false none
        (some [⟨"common.tar.zst", "u"⟩]) (.ok ["sky130A/t/a", "sky130B/t/b"]) []
        ⟨[], [], none⟩
     let r2 := enable "sky130" "v2" false none
        (some [⟨"common.tar.zst", "u2"⟩]) (.ok ["sky130A/t/a2", "sky130B/t/b2"]) []
        r1.state
     r2.state.marker = some "v2" ∧
     r2.state.rootEntries.all (fun p => !(referencesVersion "sky130" "v1" p.2)) = true ∧
     alookup r2.state.rootEntries "sky130A" =
       some (.symlink "volare/sky130/versions/v2/sky130A") ∧
     alookup r2.state.rootEntries "sky130B" =
       some (.symlink "volare/sky130/versions/v2/sky130B")) := by
  constructor
  · intro pdk version fam bnf il remote fetch bf st hby hfin
    obtain ⟨stMid, reqs, heq, _⟩ :=
      enable_as_activate pdk version fam bnf il remote fetch bf st hby hfin
    rw [heq] at hfin ⊢
    exact activate_finished_post pdk version fam.variants stMid hfin
  · decide

/-- Witness for C3 (amended): a concrete activation of an installed
version yields the marker and the `volare/...`-relative symlink. -/
theorem c3_amended_witness :
    (enable "sky130" "v1" false none none (.ok []) []
        ⟨[("v1", ["sky130A/x"])], [], none⟩).state.marker = some "v1" ∧
    alookup (enable "sky130" "v1" false none none (.ok []) []
        ⟨[("v1", ["sky130A/x"])], [], none⟩).state.rootEntries "sky130A" =
      some (.symlink (relTarget "sky130" "v1" "sky130A")) :=
  ⟨(c3_amended.1 "sky130" "v1" sky130 false none none (.ok []) []
      ⟨[("v1", ["sky130A/x"])], [], none⟩ (by decide) (by decide)).1,
   (c3_amended.1 "sky130" "v1" sky130 false none none (.ok []) []
      ⟨[("v1", ["sky130A/x"])], [], none⟩ (by decide) (by decide)).2
     "sky130A" (by decide)⟩

/-! ## C4: `uninstall` -/

/-- C4: `uninstall` raises its "not installed" `ValueError` exactly when
the version directory does not exist, leaving the state unchanged in that
case; uninstalling the installed, current version (from an `Active` state
whose variant symlinks are present) removes the variant symlinks and the
marker file and then the version directory, leaving the family `Inactive`
with no marker, no variant symlinks, and the version no longer
installed. -/
theorem c4_uninstall :
    (∀ (fam : Family) (st : PdkState) (version : String),
      isNotInstalledErr (uninstall fam st version) = !(isInstalledB st version)) ∧
    (∀ (fam : Family) (st : PdkState) (version : String),
      isInstalledB st version = false →
      uninstall fam st version = .error (.notInstalled version fam.name, st)) ∧
    (∀ (fam : Family) (st : PdkState) (version : String),
      fam.variants.Nodup →
      isInstalledB st version = true →
      isCurrentB st version = true →
      (∀ v ∈ fam.variants, ∃ t, alookup st.rootEntries v = some (.symlink t)) →
      isOkResult (uninstall fam st version) = true ∧
      (uninstallStateOf (uninstall fam st version)).marker = none ∧
      (∀ v ∈ fam.variants,
        alookup (uninstallStateOf (uninstall fam st version)).rootEntries v = none) ∧
      isInstalledB (uninstallStateOf (uninstall fam st version)) version = false) := by
  refine ⟨?_, ?_, ?_⟩
  · intro fam st version
    cases hinst : isInstalledB st version with
    | false => simp only [uninstall, hinst]; rfl
    | true =>
      simp only [uninstall, hinst, Bool.not_true, Bool.false_eq_true, if_false]
      cases unset_current fam st version with
      | error stE => rfl
      | ok st1 => rfl
  · intro fam st version hinst
    simp only [uninstall, hinst, Bool.not_false, if_true]
  · intro fam st version hnd hinst hcur hsym
    obtain ⟨st1, hgo, hlook⟩ := unsetCurrentGo_ok fam.variants st hnd hsym
    have hfields := unsetCurrentGo_fields fam.variants st
    rw [hgo] at hfields
    obtain ⟨c, hc⟩ : ∃ c, st.marker = some c := by
      unfold isCurrentB getCurrentVersionRaw at hcur
      cases hm2 : st.marker with
      | none => rw [hm2] at hcur; simp at hcur
      | some c => exact ⟨c, rfl⟩
    have hm1 : st1.marker = some c := hfields.2.trans hc
    have hunset : unset_current fam st version = .ok { st1 with marker := none } := by
      simp only [unset_current, hinst, hcur, Bool.not_true, Bool.false_eq_true, if_false]
      rw [hgo]
      simp only [hm1]
    have hred : uninstall fam st version =
        .ok (removeVersionDir { st1 with marker := none } version) := by
      simp only [uninstall, hinst, Bool.not_true, Bool.false_eq_true, if_false, hunset]
    rw [hred]
    refine ⟨rfl, rfl, fun v hv => ?_, ?_⟩
    · show alookup st1.rootEntries v = none
      rw [hlook v]
      simp [hv]
    · show (alookup (aremove st1.versions version) version).isSome = false
      rw [alookup_aremove, if_pos rfl]
      rfl

/-- Witness for C4: a missing version raises the "not installed" error
with the state unchanged; uninstalling the current version of a concrete
`Active` sky130 state succeeds, clearing marker, symlinks, and the
version directory. -/
theorem c4_uninstall_witness :
    uninstall sky130 ⟨[], [], none⟩ "v1" =
      .error (.notInstalled "v1" "sky130", ⟨[], [], none⟩) ∧
    isOkResult (uninstall sky130
      ⟨[("v1", ["sky130A/x"])],
       [("sky130A", .symlink "volare/sky130/versions/v1/sky130A"),
        ("sky130B", .symlink "volare/sky130/versions/v1/sky130B")],
       some "v1"⟩ "v1") = true ∧
    (uninstallStateOf (uninstall sky130
      ⟨[("v1", ["sky130A/x"])],
       [("sky130A", .symlink "volare/sky130/versions/v1/sky130A"),
        ("sky130B", .symlink "volare/sky130/versions/v1/sky130B")],
       some "v1"⟩ "v1")).marker = none ∧
    alookup (uninstallStateOf (uninstall sky130
      ⟨[("v1", ["sky130A/x"])],
       [("sky130A", .symlink "volare/sky130/versions/v1/sky130A"),
        ("sky130B", .symlink "volare/sky130/versions/v1/sky130B")],
       some "v1"⟩ "v1")).rootEntries "sky130A" = none :=
  by
  have h3 := c4_uninstall.2.2 sky130
    ⟨[("v1", ["sky130A/x"])],
     [("sky130A", .symlink "volare/sky130/versions/v1/sky130A"),
      ("sky130B", .symlink "volare/sky130/versions/v1/sky130B")],
     some "v1"⟩ "v1" (by decide) (by decide) (by decide)
    (by
      intro v hv
      fin_cases hv
      · exact ⟨"volare/sky130/versions/v1/sky130A", by decide⟩
      · exact ⟨"volare/sky130/versions/v1/sky130B", by decide⟩)
  exact ⟨c4_uninstall.2.1 sky130 ⟨[], [], none⟩ "v1" (by decide),
    h3.1, h3.2.1, h3.2.2.1 "sky130A" (by decide)⟩

/-! ## C5: activation never destroys non-symlink entries -/

/-- C5 fails as stated in its second half: a pre-existing variant entry
that is a symlink whose target does not resolve (a broken symlink — here
pointing into a version `ghost` that is not installed) is invisible to the
`os.path.exists` check, so it is neither removed nor replaced; the
subsequent `os.symlink` call raises `FileExistsError` and activation
aborts with the broken link still in place. -/
theorem c5_counterexample :
    (activate "sky130" "v1" ["sky130A", "sky130B"]
        ⟨[("v1", ["sky130A/x", "sky130B/x"])],
         [("sky130B", .symlink "volare/sky130/versions/ghost/sky130B")],
         none⟩).2 = .raised ∧
    alookup (activate "sky130" "v1" ["sky130A", "sky130B"]
        ⟨[("v1", ["sky130A/x", "sky130B/x"])],
         [("sky130B", .symlink "volare/sky130/versions/ghost/sky130B")],
         none⟩).1.rootEntries "sky130B" =
      some (.symlink "volare/sky130/versions/ghost/sky130B") := by
  constructor
  · decide
  · decide

/-- C5 (amended): if any variant path exists as a non-symlink entry,
activation exits with an error, leaving that entry and the marker file
untouched (first conjunct); when every existing variant entry is a symlink
whose target resolves, activation finishes and every variant path is
removed and replaced by a fresh symlink into the requested version
(second conjunct). A broken pre-existing symlink instead aborts link
creation (see the counterexample). -/
theorem c5_amended :
    (∀ (pdk version : String) (variants : List String) (st : PdkState)
        (k : String) (e : RootEntry),
      k ∈ variants → (e = .file ∨ e = .dir) →
      alookup st.rootEntries k = some e →
      (activate pdk version variants st).2 = .exited 1 ∧
      alookup (activate pdk version variants st).1.rootEntries k = some e ∧
      (activate pdk version variants st).1.marker = st.marker) ∧
    (∀ (pdk version : String) (variants : List String) (st : PdkState),
      variants.Nodup →
      (∀ v ∈ variants, ∀ e, alookup st.rootEntries v = some e →
        ∃ t, e = .symlink t ∧ targetResolves st pdk t = true) →
      (activate pdk version variants st).2 = .finished ∧
      ∀ v ∈ variants, alookup (activate pdk version variants st).1.rootEntries v =
        some (.symlink (relTarget pdk version v))) := by
  constructor
  · intro pdk version variants st k e hk he h
    exact activate_conflict pdk version variants st k e hk he h
  · intro pdk version variants st hnd hclean
    have hfin := activate_clean_success pdk version variants st hnd hclean
    exact ⟨hfin, (activate_finished_post pdk version variants st hfin).2⟩

/-- Witness for C5 (amended): a real directory at a variant path makes
activation exit 1 and survives untouched; activating over one resolving
symlink and one absent entry finishes and replaces the variant paths. -/
theorem c5_amended_witness :
    (activate "sky130" "v2" ["sky130A", "sky130B"]
        ⟨[], [("sky130A", .dir)], none⟩).2 = .exited 1 ∧
    alookup (activate "sky130" "v2" ["sky130A", "sky130B"]
        ⟨[], [("sky130A", .dir)], none⟩).1.rootEntries "sky130A" = some .dir ∧
    (activate "sky130" "v2" ["sky130A", "sky130B"]
        ⟨[("v1", ["sky130A/x", "sky130B/x"]), ("v2", ["sky130A/y", "sky130B/y"])],
         [("sky130A", .symlink "volare/sky130/versions/v1/sky130A")],
         some "v1"⟩).2 = .finished ∧
    alookup (activate "sky130" "v2" ["sky130A", "sky130B"]
        ⟨[("v1", ["sky130A/x", "sky130B/x"]), ("v2", ["sky130A/y", "sky130B/y"])],
         [("sky130A", .symlink "volare/sky130/versions/v1/sky130A")],
         some "v1"⟩).1.rootEntries "sky130A" =
      some (.symlink (relTarget "sky130" "v2" "sky130A")) := by
  have h1 := c5_amended.1 "sky130" "v2" ["sky130A", "sky130B"]
    ⟨[], [("sky130A", .dir)], none⟩ "sky130A" .dir (by decide) (Or.inr rfl) (by decide)
  have h2 := c5_amended.2 "sky130" "v2" ["sky130A", "sky130B"]
    ⟨[("v1", ["sky130A/x", "sky130B/x"]), ("v2", ["sky130A/y", "sky130B/y"])],
     [("sky130A", .symlink "volare/sky130/versions/v1/sky130A")],
     some "v1"⟩ (by decide)
    (by
      intro v hv e he
      fin_cases hv
      · refine ⟨"volare/sky130/versions/v1/sky130A", ?_, by decide⟩
        have : some (RootEntry.symlink "volare/sky130/versions/v1/sky130A") = some e := by
          rw [← he]
          decide
        exact (Option.some.inj this).symm
      · exfalso
        rw [show alookup
            [("sky130A", RootEntry.symlink "volare/sky130/versions/v1/sky130A")]
            "sky130B" = none from by decide] at he
        exact Option.noConfusion he)
  exact ⟨h1.1, h1.2.1, h2.1, h2.2 "sky130A" (by decide)⟩

end Volare
